import Mathlib

/-!
# Verification of XPlore `src/Xplore/core.py`

Shallow embedding of the XPlore client library (paginated retrieval of
keyword mentions, batched user lookup, CSV row construction with tag
classification) together with proofs of the specification's claims.

The HTTP server is modelled as an oracle: a function from the index of the
request (0-based, in the order requests are issued by the client) to the
response received.  A response record carries the HTTP status code and the
fields of the parsed JSON body that the code reads (`data`, `includes.users`,
`meta.next_token`) plus the raw `text` used in error messages.  `.get`
defaults in the Python code (`json_response.get('data', [])` etc.) are
modelled by the fields themselves: a body without the key corresponds to the
default value of the field.
-/

/-- A tweet record as read by the code: `id`, `author_id`, `text`,
`created_at` (fields accessed in `keyword2csv` and `get_mentions`). -/
structure Tweet where
  id : String
  author_id : String
  text : String
  created_at : String
deriving DecidableEq, Repr

/-- A user record from `includes.users`: `id`, `username`, and an optional
`location` field (`users[author_id].get('location', 'unknown')` treats
`location` as possibly absent). -/
structure User where
  id : String
  username : String
  location : Option String
deriving DecidableEq, Repr

/-- A response to a search-endpoint request, as observed by `get_mentions`:
the HTTP status code, the parsed `data` array, the `includes.users` array,
whether `meta` contains a `next_token` (and which), and the raw body text
used in the exception message. -/
structure MResponse where
  status : Nat
  data : List Tweet
  users : List User
  next_token : Option String
  text : String
deriving DecidableEq, Repr

/-- The Python `dict` mapping author id to user record (`all_users`),
modelled as an association list in insertion order. -/
abbrev AuthorIndex := List (String × User)

/-- Python `d[k]` lookup / `k in d` membership: the entry for a key (a
`dict` has at most one entry per key). -/
def dlookup : AuthorIndex → String → Option User
  | [], _ => none
  | p :: m, k => if p.1 = k then some p.2 else dlookup m k

/-- Python `d[k] = v`: replace the value in place if the key is present
(preserving insertion order, as CPython dicts do), else append a new
entry at the end. -/
def dinsert : AuthorIndex → String → User → AuthorIndex
  | [], k, v => [(k, v)]
  | p :: m, k, v => if p.1 = k then (k, v) :: m else p :: dinsert m k v

/-- `{u['id']: u for u in users}` — build a dict from a user list, later
entries with the same id overwriting earlier ones. -/
def pageDict (users : List User) : AuthorIndex :=
  users.foldl (fun m u => dinsert m u.id u) []

/-- `all_users.update(users)` — insert every entry of the second dict into
the first, in the second dict's order. -/
def dupdate (m d : AuthorIndex) : AuthorIndex :=
  d.foldl (fun m p => dinsert m p.1 p.2) m

/-- Outcome of a retrieval session: either the returned
`(all_tweets, all_users)` pair or the raised exception's message, together
with the total number of HTTP requests the session issued. -/
structure MentionsOutcome where
  result : Except String (List Tweet × AuthorIndex)
  requests : Nat
deriving Repr

/-- The body of `get_mentions`'s `for _ in range(max_pages)` loop
(core.py lines 201–219), with the remaining iteration count as fuel and the
index of the next request as a counter.  Faithful to the source:

* status 429: sleep, then retry the same request once — and parse the retry
  response's body **without checking its status** (the `elif` only guards the
  first attempt);
* any other non-200 status on the first attempt: raise
  `Exception(f"Cannot fetch mentions: {text}")`;
* otherwise extend `all_tweets` with `data`, `update` `all_users` with the
  dict built from `includes.users`, and continue iff `meta` has a
  `next_token` (the cursor is forwarded to the server via the request
  sequence), else `break` and return.

Exhausting the fuel is the normal exit of the `for` loop: the accumulated
result is returned. -/
def get_mentionsLoop (server : Nat → MResponse) :
    Nat → Nat → List Tweet → AuthorIndex → MentionsOutcome
  | 0, reqIdx, all_tweets, all_users =>
    ⟨.ok (all_tweets, all_users), reqIdx⟩
  | fuel + 1, reqIdx, all_tweets, all_users =>
    let response := server reqIdx
    if response.status = 429 then
      -- "Too many requests. Sleeping for 15 minutes..." — retry once,
      -- then fall through to parsing with NO status check on the retry.
      let retry := server (reqIdx + 1)
      let all_tweets2 := all_tweets ++ retry.data
      let all_users2 := dupdate all_users (pageDict retry.users)
      match retry.next_token with
      | some _ => get_mentionsLoop server fuel (reqIdx + 2) all_tweets2 all_users2
      | none => ⟨.ok (all_tweets2, all_users2), reqIdx + 2⟩
    else if response.status ≠ 200 then
      ⟨.error ("Cannot fetch mentions: " ++ response.text), reqIdx + 1⟩
    else
      let all_tweets2 := all_tweets ++ response.data
      let all_users2 := dupdate all_users (pageDict response.users)
      match response.next_token with
      | some _ => get_mentionsLoop server fuel (reqIdx + 1) all_tweets2 all_users2
      | none => ⟨.ok (all_tweets2, all_users2), reqIdx + 1⟩

/-- Function `get_mentions(keyword, bearer_token, max_results, max_pages)`
(core.py lines 175–221): run the page loop for at most `max_pages`
iterations starting from empty accumulators.  The query, token and page-size
parameters only shape the requests, which the oracle abstracts. -/
def get_mentions (server : Nat → MResponse) (max_pages : Nat) : MentionsOutcome :=
  get_mentionsLoop server max_pages 0 [] []

/-- Tweets of `P` consecutive successful pages whose first request has index
`base`: the concatenation, in arrival order, of each response's `data`. -/
def pagesData (server : Nat → MResponse) : Nat → Nat → List Tweet
  | _, 0 => []
  | base, P + 1 => (server base).data ++ pagesData server (base + 1) P

/-- The author index obtained from `idx` by processing, in order, the
`includes.users` of `P` consecutive pages starting at request index `base`,
exactly as the loop does (`all_users.update({u['id']: u for u in users})`). -/
def pagesIdx (server : Nat → MResponse) : Nat → Nat → AuthorIndex → AuthorIndex
  | _, 0, idx => idx
  | base, P + 1, idx => pagesIdx server (base + 1) P (dupdate idx (pageDict (server base).users))

/-- Users of `P` consecutive pages starting at request index `base`, as one
flat list in arrival order. -/
def pagesUsers (server : Nat → MResponse) : Nat → Nat → List User
  | _, 0 => []
  | base, P + 1 => (server base).users ++ pagesUsers server (base + 1) P

/-- Option choice biased to the first argument (`a` if `a` is `some`,
else `b`); used to phrase last-write-wins lookups. -/
def oor (a b : Option User) : Option User :=
  match a with
  | some v => some v
  | none => b

/-- The last user record with a given id in a list (the record that wins
under last-write-wins accumulation), if any. -/
def lastById : List User → String → Option User
  | [], _ => none
  | u :: us, k => oor (lastById us k) (if u.id = k then some u else none)

/-- The last entry with a given key in an association list, if any. -/
def lastPairById : AuthorIndex → String → Option User
  | [], _ => none
  | p :: d, k => oor (lastPairById d k) (if p.1 = k then some p.2 else none)

/-- Keys of the author index, in insertion order. -/
def keysOf (m : AuthorIndex) : List String :=
  m.map Prod.fst

/-- Folding a list of user records into a dict one `d[u['id']] = u`
assignment at a time (the combined effect of building the per-page dict and
`update`-ing the accumulator with it). -/
def userFold (m : AuthorIndex) (users : List User) : AuthorIndex :=
  users.foldl (fun m u => dinsert m u.id u) m

/-! ## Tag classifier and CSV rows (`keyword2csv`, core.py lines 73–106) -/

/-- ASCII whitespace, as matched by the regex class `\s` (the claims never
depend on the non-ASCII whitespace code points that Python's Unicode `\s`
additionally matches). -/
def isPySpace (c : Char) : Bool :=
  c = ' ' || c = '\t' || c = '\n' || c = '\r' || c = '\x0b' || c = '\x0c'

/-- Match of the regex `@([^\s]+)` anchored at the start of the given
character list: an `@` followed by at least one non-whitespace character;
the greedy capture group is the maximal non-whitespace run. -/
def mentionAt : List Char → Option (List Char)
  | '@' :: tail =>
    let grp := tail.takeWhile (fun d => !(isPySpace d))
    if grp.length > 0 then some grp else none
  | _ => none

/-- Match of the regex `RT @([^:\s]+):` anchored at the start of the given
character list: the literal `RT @`, then a maximal nonempty run of
characters that are neither `:` nor whitespace (the capture group), then a
literal `:`.  No backtracking arises: the class excludes `:`, so a shorter
group can never be followed by `:`. -/
def rtAt : List Char → Option (List Char)
  | 'R' :: 'T' :: ' ' :: '@' :: tail =>
    let grp := tail.takeWhile (fun d => !(isPySpace d) && !(d = ':'))
    if grp.length > 0 ∧ (tail.drop grp.length).head? = some ':' then some grp
    else none
  | _ => none

/-- Python `re.search` semantics: try the anchored matcher at each
position from the left and return the capture group of the leftmost
position that matches. -/
def reSearch (f : List Char → Option (List Char)) : List Char → Option (List Char)
  | [] => none
  | c :: rest =>
    match f (c :: rest) with
    | some g => some g
    | none => reSearch f rest

/-- The tag/source assignment of `keyword2csv` (core.py lines 91–100):
`tag` and `source` start empty; a match of the mention pattern sets them to
`"mention"` and its group; a match of the retweet pattern, checked
afterwards, overwrites them with `"retweet"` and its group. -/
def tagSource (text : String) : String × String :=
  let chars := text.toList
  let afterMention :=
    match reSearch mentionAt chars with
    | some g => ("mention", String.mk g)
    | none => ("", "")
  match reSearch rtAt chars with
  | some g => ("retweet", String.mk g)
  | none => afterMention

/-- One row of the mentions CSV, with the columns of the header row
`['tweet_Id', 'Author_Username', 'Source_of_Tweet', 'Author_id', 'Tag',
'Keyword', 'Created_at', 'Location', 'Tweet_Content']`. -/
structure Row where
  tweet_Id : String
  Author_Username : String
  Source_of_Tweet : String
  Author_id : String
  Tag : String
  Keyword : String
  Created_at : String
  Location : String
  Tweet_Content : String
deriving DecidableEq, Repr

/-- The tuple `keyword2csv` adds to `nodes` for one tweet (core.py lines
84–101): the author's username and location default to `'unknown'` when the
author id is not in `users`, and the location also defaults to `'unknown'`
when the author record lacks a `location` field. -/
def rowOf (users : AuthorIndex) (keyword : String) (tweet : Tweet) : Row :=
  let target :=
    match dlookup users tweet.author_id with
    | some u => u.username
    | none => "unknown"
  let location :=
    match dlookup users tweet.author_id with
    | some u => u.location.getD "unknown"
    | none => "unknown"
  let ts := tagSource tweet.text
  ⟨tweet.id, target, ts.2, tweet.author_id, ts.1, keyword, tweet.created_at, location, tweet.text⟩

/-- The `nodes` accumulated by `keyword2csv`: a Python `set` of tuples, one
per tweet, modelled as a `Finset` (set iteration order is unspecified, so
the observable content of the written CSV body is exactly this set; the
header row is fixed). -/
def keyword2csvRows (tweets : List Tweet) (users : AuthorIndex) (keyword : String) : Finset Row :=
  (tweets.map (rowOf users keyword)).toFinset

/-! ## Batched user lookup (`get_users`, core.py lines 109–141) -/

/-- A user-profile record returned by the bulk endpoint, kept opaque (the
code only concatenates them). -/
abbrev ProfileRec := String

/-- A response to a `users/by` request as observed by `get_users`: status
code, the `data` array of the body, and the raw body text for the error
message. -/
structure UsersResponse where
  status : Nat
  data : List ProfileRec
  text : String
deriving DecidableEq, Repr

/-- Outcome of a `get_users` call: the returned concatenation or the raised
exception's message, with the number of requests issued. -/
structure UsersOutcome where
  result : Except String (List ProfileRec)
  requests : Nat
deriving Repr

/-- Structural helper for `userBatches`: the first argument is a fuel bound
on the number of slices (any bound at least the list length works, since
each nonempty step drops at least one element). -/
def userBatchesAux : Nat → List String → List (List String)
  | 0, _ => []
  | fuel + 1, l =>
    if l = [] then []
    else l.take 100 :: userBatchesAux fuel (l.drop 100)

/-- The batches `user_ids[i:i+batch_size]` for
`i in range(0, len(user_ids), batch_size)` with `batch_size = 100`:
consecutive slices of at most 100 ids, in order. -/
def userBatches (user_ids : List String) : List (List String) :=
  userBatchesAux user_ids.length user_ids

/-- The loop of `get_users` (core.py lines 128–139) over the precomputed
batches, with the bulk-endpoint server modelled as an oracle taking the
request index and the batch of ids sent as `params['ids']`: each batch
issues one request; a non-200 status raises `Exception(f"API error: ...")`
with no retry (in particular a 429 raises like any other status); a 200
response's `data` is appended to the accumulator. -/
def get_usersLoop (server : Nat → List String → UsersResponse) :
    List (List String) → Nat → List ProfileRec → UsersOutcome
  | [], reqIdx, acc => ⟨.ok acc, reqIdx⟩
  | b :: bs, reqIdx, acc =>
    let response := server reqIdx b
    if response.status ≠ 200 then
      ⟨.error ("API error: " ++ response.text), reqIdx + 1⟩
    else
      get_usersLoop server bs (reqIdx + 1) (acc ++ response.data)

/-- Function `get_users(user_ids, bearer_token)` (core.py lines 109–141):
batch the ids by 100 and run the sequential request loop from an empty
accumulator. -/
def get_users (user_ids : List String) (server : Nat → List String → UsersResponse) :
    UsersOutcome :=
  get_usersLoop server (userBatches user_ids) 0 []

/-- Concatenation of the `data` arrays of the responses to a batch list
starting at a request index, in batch order. -/
def batchesData (server : Nat → List String → UsersResponse) :
    Nat → List (List String) → List ProfileRec
  | _, [] => []
  | r, b :: bs => (server r b).data ++ batchesData server (r + 1) bs

/-- All responses to a batch list starting at a request index have
status 200. -/
def batchesOk (server : Nat → List String → UsersResponse) :
    Nat → List (List String) → Bool
  | _, [] => true
  | r, b :: bs => ((server r b).status == 200) && batchesOk server (r + 1) bs

/-! ## Concrete inputs used by witnesses -/

/-- A successful page: two tweets, one author, continuation cursor present. -/
def wPageA : MResponse :=
  ⟨200, [⟨"t1", "a1", "hi @x", "d1"⟩, ⟨"t2", "a1", "y", "d2"⟩],
    [⟨"a1", "alice", some "NY"⟩], some "tok", "ok"⟩

/-- A final successful page: two tweets, two authors — one of them (`a1`)
already seen on `wPageA` with different field values — and no cursor. -/
def wPageB : MResponse :=
  ⟨200, [⟨"t3", "a2", "z", "d3"⟩, ⟨"t4", "a3", "RT @q: w", "d4"⟩],
    [⟨"a1", "alicia", none⟩, ⟨"a2", "bob", none⟩], none, "ok"⟩

/-- A two-page session: `wPageA` then `wPageB`. -/
def wServer : Nat → MResponse :=
  fun n => if n = 0 then wPageA else wPageB

/-- A session whose first request is rate-limited and whose retry succeeds
with `wPageB`. -/
def wRetryServer : Nat → MResponse :=
  fun n => if n = 0 then ⟨429, [], [], none, "Too Many Requests"⟩ else wPageB

/-- A server that always answers with the cursor-bearing page `wPageA`:
the session can only end by reaching the page ceiling. -/
def wCeilServer : Nat → MResponse :=
  fun _ => wPageA

/-- A tweet whose text contains a plain mention. -/
def wT1 : Tweet := ⟨"t1", "a1", "hi @x", "d1"⟩

/-- A tweet that is a retweet, by an author absent from `wUsers`. -/
def wT2 : Tweet := ⟨"t2", "a9", "RT @y: hello", "d2"⟩

/-- A tweet by the location-less author `wNoLocUser`. -/
def wT3 : Tweet := ⟨"t3", "a2", "x", "d3"⟩

/-- A user record without a `location` field. -/
def wNoLocUser : User := ⟨"a2", "bob", none⟩

/-- A one-author index that does not contain `a9` or `a2`. -/
def wUsers : AuthorIndex := [("a1", ⟨"a1", "alice", some "NY"⟩)]

/-- 101 user ids: enough for two batches of the bulk lookup. -/
def wIds : List String := (List.range 101).map (fun n => n.repr)

/-- A bulk-lookup server answering every batch with one record. -/
def wUsersServer : Nat → List String → UsersResponse :=
  fun _ _ => ⟨200, ["u"], "ok"⟩

/-- A bulk-lookup server that rate-limits every request: `get_users` treats
the 429 like any other non-200 status. -/
def wUsersBadServer : Nat → List String → UsersResponse :=
  fun _ _ => ⟨429, [], "Too Many Requests"⟩

-- THEOREMS

/-! ## Dictionary lemmas -/

theorem oor_none (a : Option User) : oor a none = a := by
  cases a <;> rfl

theorem oor_assoc (a b c : Option User) : oor (oor a b) c = oor a (oor b c) := by
  cases a <;> rfl

theorem dlookup_dinsert (m : AuthorIndex) (k : String) (v : User) (k2 : String) :
    dlookup (dinsert m k v) k2 = if k = k2 then some v else dlookup m k2 := by
  induction m with
  | nil => simp [dinsert, dlookup]
  | cons p m ih =>
    by_cases h : p.1 = k
    · by_cases h2 : k = k2
      · simp [dinsert, dlookup, h, h2]
      · have hp : ¬p.1 = k2 := fun hc => h2 (h.symm.trans hc)
        simp [dinsert, dlookup, h, h2, hp]
    · by_cases h2 : p.1 = k2
      · have h3 : ¬k = k2 := fun hc => h (h2.trans hc.symm)
        have h4 : ¬k2 = k := fun hc => h3 hc.symm
        simp [dinsert, dlookup, h, h2, h3, h4]
      · simp [dinsert, dlookup, h, h2, ih]

theorem mem_keysOf_dinsert (m : AuthorIndex) (k : String) (v : User) (a : String) :
    a ∈ keysOf (dinsert m k v) ↔ a = k ∨ a ∈ keysOf m := by
  induction m with
  | nil => simp [dinsert, keysOf, eq_comm]
  | cons p m ih =>
    by_cases h : p.1 = k
    · have h4 : dinsert (p :: m) k v = (k, v) :: m := by simp [dinsert, h]
      rw [h4]
      simp only [keysOf, List.map_cons, List.mem_cons, h]
      tauto
    · have h4 : dinsert (p :: m) k v = p :: dinsert m k v := by simp [dinsert, h]
      rw [h4]
      simp only [keysOf, List.map_cons, List.mem_cons]
      simp only [keysOf] at ih
      rw [ih]
      tauto

theorem nodup_keysOf_dinsert (m : AuthorIndex) (k : String) (v : User)
    (hm : (keysOf m).Nodup) : (keysOf (dinsert m k v)).Nodup := by
  induction m with
  | nil => simp [dinsert, keysOf]
  | cons p m ih =>
    simp only [keysOf, List.map_cons, List.nodup_cons] at hm
    by_cases h : p.1 = k
    · simp only [dinsert, h, if_pos]
      simp only [keysOf, List.map_cons, List.nodup_cons]
      exact ⟨h ▸ hm.1, hm.2⟩
    · simp only [dinsert, h, if_neg, not_false_iff]
      simp only [keysOf, List.map_cons, List.nodup_cons]
      refine ⟨fun hc => ?_, ih hm.2⟩
      rcases (mem_keysOf_dinsert m k v p.1).mp hc with rfl | hc2
      · exact h rfl
      · exact hm.1 hc2

theorem lastPairById_eq_none (d : AuthorIndex) (k : String) (hk : k ∉ keysOf d) :
    lastPairById d k = none := by
  induction d with
  | nil => rfl
  | cons p d ih =>
    simp only [keysOf, List.map_cons, List.mem_cons] at hk
    push_neg at hk
    have h1 : ¬p.1 = k := fun hc => hk.1 hc.symm
    simp only [lastPairById, h1, if_neg, not_false_iff, ih (by simpa [keysOf] using hk.2)]
    rfl

theorem lastPairById_eq_dlookup (d : AuthorIndex) (k : String)
    (hd : (keysOf d).Nodup) : lastPairById d k = dlookup d k := by
  induction d with
  | nil => rfl
  | cons p d ih =>
    simp only [keysOf, List.map_cons, List.nodup_cons] at hd
    by_cases h : p.1 = k
    · have hnone : lastPairById d k = none :=
        lastPairById_eq_none d k (fun hc => hd.1 (h ▸ hc))
      simp [lastPairById, dlookup, h, hnone, oor]
    · simp [lastPairById, dlookup, h, ih (by simpa [keysOf] using hd.2), oor_none]

theorem dlookup_dupdate (d m : AuthorIndex) (k : String) :
    dlookup (dupdate m d) k = oor (lastPairById d k) (dlookup m k) := by
  induction d generalizing m with
  | nil => rfl
  | cons p d ih =>
    have step : dupdate m (p :: d) = dupdate (dinsert m p.1 p.2) d := rfl
    rw [step, ih, lastPairById, oor_assoc, dlookup_dinsert]
    by_cases h : p.1 = k <;> simp [h, oor]

theorem dlookup_userFold (L : List User) (m : AuthorIndex) (k : String) :
    dlookup (userFold m L) k = oor (lastById L k) (dlookup m k) := by
  induction L generalizing m with
  | nil => rfl
  | cons u L ih =>
    have step : userFold m (u :: L) = userFold (dinsert m u.id u) L := rfl
    rw [step, ih, lastById, oor_assoc, dlookup_dinsert]
    by_cases h : u.id = k <;> simp [h, oor]

theorem dlookup_pageDict (L : List User) (k : String) :
    dlookup (pageDict L) k = lastById L k := by
  have h : pageDict L = userFold [] L := rfl
  rw [h, dlookup_userFold]
  simp [dlookup, oor_none]

theorem mem_keysOf_dupdate (d m : AuthorIndex) (k : String) :
    k ∈ keysOf (dupdate m d) ↔ k ∈ keysOf d ∨ k ∈ keysOf m := by
  induction d generalizing m with
  | nil => simp [dupdate, keysOf]
  | cons p d ih =>
    have step : dupdate m (p :: d) = dupdate (dinsert m p.1 p.2) d := rfl
    rw [step, ih]
    rw [show keysOf (p :: d) = p.1 :: keysOf d from rfl]
    simp only [List.mem_cons, mem_keysOf_dinsert]
    tauto

theorem mem_keysOf_userFold (L : List User) (m : AuthorIndex) (k : String) :
    k ∈ keysOf (userFold m L) ↔ k ∈ L.map User.id ∨ k ∈ keysOf m := by
  induction L generalizing m with
  | nil => simp [userFold, keysOf]
  | cons u L ih =>
    have step : userFold m (u :: L) = userFold (dinsert m u.id u) L := rfl
    rw [step, ih]
    simp only [List.map_cons, List.mem_cons, mem_keysOf_dinsert]
    tauto

theorem mem_keysOf_pageDict (L : List User) (k : String) :
    k ∈ keysOf (pageDict L) ↔ k ∈ L.map User.id := by
  have h : pageDict L = userFold [] L := rfl
  rw [h, mem_keysOf_userFold]
  simp [keysOf]

theorem nodup_keysOf_dupdate (d m : AuthorIndex) (hm : (keysOf m).Nodup) :
    (keysOf (dupdate m d)).Nodup := by
  induction d generalizing m with
  | nil => exact hm
  | cons p d ih =>
    exact ih (dinsert m p.1 p.2) (nodup_keysOf_dinsert m p.1 p.2 hm)

theorem nodup_keysOf_userFold (L : List User) (m : AuthorIndex)
    (hm : (keysOf m).Nodup) : (keysOf (userFold m L)).Nodup := by
  induction L generalizing m with
  | nil => exact hm
  | cons u L ih =>
    exact ih (dinsert m u.id u) (nodup_keysOf_dinsert m u.id u hm)

theorem dlookup_dupdate_pageDict (m : AuthorIndex) (L : List User) (k : String) :
    dlookup (dupdate m (pageDict L)) k = oor (lastById L k) (dlookup m k) := by
  rw [dlookup_dupdate,
    lastPairById_eq_dlookup (pageDict L) k (nodup_keysOf_userFold L [] (by simp [keysOf])),
    dlookup_pageDict]

theorem lastById_append (A B : List User) (k : String) :
    lastById (A ++ B) k = oor (lastById B k) (lastById A k) := by
  induction A with
  | nil => simp [lastById, oor_none]
  | cons u A ih =>
    simp only [List.cons_append, lastById, List.append_eq]
    rw [ih, oor_assoc]

theorem dlookup_pagesIdx (server : Nat → MResponse) (P : Nat) :
    ∀ (base : Nat) (idx : AuthorIndex) (k : String),
      dlookup (pagesIdx server base P idx) k =
        oor (lastById (pagesUsers server base P) k) (dlookup idx k) := by
  induction P with
  | zero => intro base idx k; simp [pagesIdx, pagesUsers, lastById, oor]
  | succ P ih =>
    intro base idx k
    rw [show pagesIdx server base (P + 1) idx =
          pagesIdx server (base + 1) P (dupdate idx (pageDict (server base).users)) from rfl,
      ih, dlookup_dupdate_pageDict,
      show pagesUsers server base (P + 1) =
        (server base).users ++ pagesUsers server (base + 1) P from rfl,
      lastById_append, oor_assoc]

theorem mem_keysOf_pagesIdx (server : Nat → MResponse) (P : Nat) :
    ∀ (base : Nat) (idx : AuthorIndex) (k : String),
      k ∈ keysOf (pagesIdx server base P idx) ↔
        k ∈ (pagesUsers server base P).map User.id ∨ k ∈ keysOf idx := by
  induction P with
  | zero => intro base idx k; simp [pagesIdx, pagesUsers]
  | succ P ih =>
    intro base idx k
    rw [show pagesIdx server base (P + 1) idx =
          pagesIdx server (base + 1) P (dupdate idx (pageDict (server base).users)) from rfl,
      ih, mem_keysOf_dupdate,
      show pagesUsers server base (P + 1) =
        (server base).users ++ pagesUsers server (base + 1) P from rfl]
    simp only [List.map_append, List.mem_append, mem_keysOf_pageDict]
    tauto

theorem nodup_keysOf_pagesIdx (server : Nat → MResponse) (P : Nat) :
    ∀ (base : Nat) (idx : AuthorIndex), (keysOf idx).Nodup →
      (keysOf (pagesIdx server base P idx)).Nodup := by
  induction P with
  | zero => intro base idx h; exact h
  | succ P ih =>
    intro base idx h
    exact ih (base + 1) _ (nodup_keysOf_dupdate _ idx h)

/-! ## Run lemmas for the retrieval loop -/

theorem pagesData_length (server : Nat → MResponse) (N : Nat) :
    ∀ (P base : Nat), (∀ i, i < P → ((server (base + i)).data).length = N) →
      (pagesData server base P).length = N * P := by
  intro P
  induction P with
  | zero => intro base _; simp [pagesData]
  | succ P ih =>
    intro base h
    have h0 : ((server base).data).length = N := by
      have := h 0 (by omega); simpa using this
    have h2 : ∀ i, i < P → ((server (base + 1 + i)).data).length = N := by
      intro i hi
      have := h (i + 1) (by omega)
      rwa [show base + (i + 1) = base + 1 + i by omega] at this
    simp only [pagesData, List.length_append, h0, ih (base + 1) h2, Nat.mul_succ]
    omega

theorem get_mentionsLoop_run_ok (server : Nat → MResponse) :
    ∀ (P fuel base : Nat) (acc : List Tweet) (idx : AuthorIndex),
      0 < P → P ≤ fuel →
      (∀ i, i < P → (server (base + i)).status = 200) →
      (∀ i, i + 1 < P → ((server (base + i)).next_token).isSome = true) →
      (server (base + (P - 1))).next_token = none →
      get_mentionsLoop server fuel base acc idx =
        ⟨.ok (acc ++ pagesData server base P, pagesIdx server base P idx), base + P⟩ := by
  intro P
  induction P with
  | zero => intro fuel base acc idx h0 _ _ _ _; omega
  | succ P ih =>
    intro fuel base acc idx _ hle hstat hnt hlast
    cases fuel with
    | zero => omega
    | succ f =>
      have hs : (server base).status = 200 := by
        have h := hstat 0 (by omega); simpa using h
      cases P with
      | zero =>
        have hl : (server base).next_token = none := by simpa using hlast
        simp [get_mentionsLoop, hs, hl, pagesData, pagesIdx]
      | succ Q =>
        have htok := hnt 0 (by omega)
        rw [Option.isSome_iff_exists] at htok
        obtain ⟨tok, htok⟩ := htok
        rw [show base + 0 = base by omega] at htok
        have hstat2 : ∀ i, i < Q + 1 → (server (base + 1 + i)).status = 200 := by
          intro i hi
          have h := hstat (i + 1) (by omega)
          rwa [show base + (i + 1) = base + 1 + i by omega] at h
        have hnt2 : ∀ i, i + 1 < Q + 1 → ((server (base + 1 + i)).next_token).isSome = true := by
          intro i hi
          have h := hnt (i + 1) (by omega)
          rwa [show base + (i + 1) = base + 1 + i by omega] at h
        have hlast2 : (server (base + 1 + (Q + 1 - 1))).next_token = none := by
          rwa [show base + 1 + (Q + 1 - 1) = base + (Q + 1 + 1 - 1) by omega]
        have hrec := ih f (base + 1) (acc ++ (server base).data)
          (dupdate idx (pageDict (server base).users)) (by omega) (by omega) hstat2 hnt2 hlast2
        simp only [get_mentionsLoop, hs, htok]
        norm_num
        rw [hrec]
        simp only [pagesData, pagesIdx, List.append_assoc, MentionsOutcome.mk.injEq]
        refine ⟨trivial, by omega⟩

theorem get_mentionsLoop_run_ceiling (server : Nat → MResponse) :
    ∀ (fuel base : Nat) (acc : List Tweet) (idx : AuthorIndex),
      (∀ i, i < fuel →
        (server (base + i)).status = 200 ∧ ((server (base + i)).next_token).isSome = true) →
      get_mentionsLoop server fuel base acc idx =
        ⟨.ok (acc ++ pagesData server base fuel, pagesIdx server base fuel idx), base + fuel⟩ := by
  intro fuel
  induction fuel with
  | zero => intro base acc idx _; simp [get_mentionsLoop, pagesData, pagesIdx]
  | succ f ih =>
    intro base acc idx h
    have hs : (server base).status = 200 := by
      have := (h 0 (by omega)).1; simpa using this
    have htok := (h 0 (by omega)).2
    rw [Option.isSome_iff_exists] at htok
    obtain ⟨tok, htok⟩ := htok
    rw [show base + 0 = base by omega] at htok
    have h2 : ∀ i, i < f →
        (server (base + 1 + i)).status = 200 ∧
          ((server (base + 1 + i)).next_token).isSome = true := by
      intro i hi
      have := h (i + 1) (by omega)
      rwa [show base + (i + 1) = base + 1 + i by omega] at this
    have hrec := ih (base + 1) (acc ++ (server base).data)
      (dupdate idx (pageDict (server base).users)) h2
    simp only [get_mentionsLoop, hs, htok]
    norm_num
    rw [hrec]
    simp only [pagesData, pagesIdx, List.append_assoc, MentionsOutcome.mk.injEq]
    refine ⟨trivial, by omega⟩

theorem get_mentionsLoop_requests_le (server : Nat → MResponse) :
    ∀ (fuel base : Nat) (acc : List Tweet) (idx : AuthorIndex),
      (get_mentionsLoop server fuel base acc idx).requests ≤ base + 2 * fuel := by
  intro fuel
  induction fuel with
  | zero => intro base acc idx; simp [get_mentionsLoop]
  | succ f ih =>
    intro base acc idx
    by_cases h429 : (server base).status = 429
    · cases htok : (server (base + 1)).next_token with
      | some tok =>
        simp only [get_mentionsLoop, h429, htok, if_true]
        exact le_trans (ih _ _ _) (by omega)
      | none =>
        simp [get_mentionsLoop, h429, htok]
    · by_cases h200 : (server base).status = 200
      · cases htok : (server base).next_token with
        | some tok =>
          simp [get_mentionsLoop, h429, h200, htok]
          exact le_trans (ih _ _ _) (by omega)
        | none =>
          simp [get_mentionsLoop, h429, h200, htok]
          all_goals omega
      · simp [get_mentionsLoop, h429, h200]
        all_goals omega


/-! ## Claims about the retrieval loop -/

/-- C1: the claim states that when a page request returns 429 and the single
retry also returns a non-success status (including a second 429),
`get_mentions` surfaces a failure.  The code does not: the `elif` status
check only guards the first attempt, so the retry response is parsed as a
page body whatever its status.  With every request answered 429 (an error
body carrying no `data`, `includes` or `meta.next_token`), the session
issues the request and its one retry, parses the second 429 body as an
empty final page, and returns `ok ([], [])` — no exception is raised. -/
theorem get_mentions_double429_returns_ok :
    get_mentions (fun _ => ⟨429, [], [], none, "Too Many Requests"⟩) 2 =
      ⟨.ok ([], []), 2⟩ := rfl

/-- C2: the claim states that a page request returning a status that is
neither 200 nor 429 always makes `get_mentions` raise.  That holds for
first-attempt requests (the `elif` raises), but not for the retry issued
after a 429: its status is never checked.  In a session whose first request
returns 429 and whose retry returns 500, the 500 body is parsed as an empty
final page and the session returns `ok ([], [])` after the two requests —
no exception, contradicting the claim. -/
theorem get_mentions_retry500_returns_ok :
    get_mentions
      (fun n => if n = 0 then ⟨429, [], [], none, "Too Many Requests"⟩
        else ⟨500, [], [], none, "Internal Server Error"⟩) 3 =
      ⟨.ok ([], []), 2⟩ := rfl

/-- C3: if the server answers the first `P` requests with status 200, each
carrying `N` items, cursors present on all but the `P`-th response and
absent there, and `P ≤ max_pages`, then `get_mentions` returns exactly the
concatenation of the `P` pages' items in arrival order (within-page order
preserved), `N × P` items in total, using exactly `P` requests. -/
theorem get_mentions_counts_items (server : Nat → MResponse) (P N max_pages : Nat)
    (hP : 0 < P) (hle : P ≤ max_pages)
    (hstat : ∀ i, i < P → (server i).status = 200)
    (hN : ∀ i, i < P → ((server i).data).length = N)
    (hnt : ∀ i, i + 1 < P → ((server i).next_token).isSome = true)
    (hlast : (server (P - 1)).next_token = none) :
    get_mentions server max_pages =
      ⟨.ok (pagesData server 0 P, pagesIdx server 0 P []), P⟩ ∧
    (pagesData server 0 P).length = N * P := by
  constructor
  · have h := get_mentionsLoop_run_ok server P max_pages 0 [] [] hP hle
      (by intro i hi; simpa using hstat i hi)
      (by intro i hi; simpa using hnt i hi)
      (by simpa using hlast)
    simpa [get_mentions] using h
  · exact pagesData_length server N P 0 (by intro i hi; simpa using hN i hi)

/-- Witness for C3: the two-page session `wServer` (two items per page)
returns the four items of the two pages in order, in two requests. -/
theorem get_mentions_counts_items_witness :
    (0 < 2 ∧ 2 ≤ 5 ∧ (∀ i, i < 2 → (wServer i).status = 200) ∧
      (∀ i, i < 2 → ((wServer i).data).length = 2) ∧
      (∀ i, i + 1 < 2 → ((wServer i).next_token).isSome = true) ∧
      (wServer (2 - 1)).next_token = none) ∧
    (get_mentions wServer 5 =
      ⟨.ok (pagesData wServer 0 2, pagesIdx wServer 0 2 []), 2⟩ ∧
      (pagesData wServer 0 2).length = 2 * 2) :=
  ⟨⟨by decide, by decide, by decide, by decide,
      by intro i hi; have h0 : i = 0 := (by omega); subst h0; decide, by decide⟩,
    get_mentions_counts_items wServer 2 2 5 (by decide) (by decide) (by decide)
      (by decide) (by intro i hi; have h0 : i = 0 := (by omega); subst h0; decide)
      (by decide)⟩

/-- C4: when a page request is answered 429 and the retry of the same
request is answered 200, the loop succeeds for that page: the state passed
on (and, if this is the final page, the returned result) extends the
accumulators with exactly the retry response's items and users — nothing
from the 429 response's body is accumulated, and nothing is accumulated
twice. -/
theorem get_mentionsLoop_429_then_200 (server : Nat → MResponse)
    (fuel reqIdx : Nat) (all_tweets : List Tweet) (all_users : AuthorIndex)
    (h429 : (server reqIdx).status = 429)
    (h200 : (server (reqIdx + 1)).status = 200) :
    ((server (reqIdx + 1)).next_token = none →
      get_mentionsLoop server (fuel + 1) reqIdx all_tweets all_users =
        ⟨.ok (all_tweets ++ (server (reqIdx + 1)).data,
          dupdate all_users (pageDict (server (reqIdx + 1)).users)), reqIdx + 2⟩) ∧
    (∀ tok, (server (reqIdx + 1)).next_token = some tok →
      get_mentionsLoop server (fuel + 1) reqIdx all_tweets all_users =
        get_mentionsLoop server fuel (reqIdx + 2)
          (all_tweets ++ (server (reqIdx + 1)).data)
          (dupdate all_users (pageDict (server (reqIdx + 1)).users))) := by
  constructor
  · intro hnone
    simp [get_mentionsLoop, h429, hnone]
  · intro tok htok
    simp [get_mentionsLoop, h429, htok]

/-- Witness for C4: a 429 answered by the successful final page `wPageB`
returns exactly `wPageB`'s items and users after the two requests. -/
theorem get_mentionsLoop_429_then_200_witness :
    ((wRetryServer 0).status = 429 ∧ (wRetryServer 1).status = 200 ∧
      (wRetryServer 1).next_token = none) ∧
    get_mentionsLoop wRetryServer 1 0 [] [] =
      ⟨.ok ((wRetryServer 1).data, dupdate [] (pageDict (wRetryServer 1).users)), 2⟩ :=
  ⟨⟨by decide, by decide, by decide⟩,
    (get_mentionsLoop_429_then_200 wRetryServer 0 0 [] [] (by decide) (by decide)).1
      (by decide)⟩

/-- C5: the loop runs at most `max_pages` iterations, so a session issues at
most `2 × max_pages` requests whatever the server does (each iteration
issues one request plus at most one retry) — in particular `get_mentions`
always terminates; and when each of the first `max_pages` responses is a 200
carrying `N` items and a continuation cursor, the session returns the
`max_pages × N` accumulated items without raising, using exactly
`max_pages` requests. -/
theorem get_mentions_page_ceiling (server : Nat → MResponse) (max_pages N : Nat) :
    (get_mentions server max_pages).requests ≤ 2 * max_pages ∧
    ((∀ i, i < max_pages →
        (server i).status = 200 ∧ ((server i).data).length = N ∧
          ((server i).next_token).isSome = true) →
      get_mentions server max_pages =
        ⟨.ok (pagesData server 0 max_pages, pagesIdx server 0 max_pages []), max_pages⟩ ∧
      (pagesData server 0 max_pages).length = max_pages * N) := by
  constructor
  · have h := get_mentionsLoop_requests_le server max_pages 0 [] []
    simpa [get_mentions] using h
  · intro h
    constructor
    · have hrun := get_mentionsLoop_run_ceiling server max_pages 0 [] []
        (by
          intro i hi
          have h2 := h i hi
          exact ⟨by simpa using h2.1, by simpa using h2.2.2⟩)
      simpa [get_mentions] using hrun
    · have h2 := pagesData_length server N max_pages 0
        (by intro i hi; simpa using (h i hi).2.1)
      rw [h2, Nat.mul_comm]

/-- Witness for C5: with every response the cursor-bearing two-item page
`wPageA`, a ceiling of 3 pages returns the 6 accumulated items in exactly
3 requests (and the request bound 2 × 3 holds). -/
theorem get_mentions_page_ceiling_witness :
    (∀ i, i < 3 →
      (wCeilServer i).status = 200 ∧ ((wCeilServer i).data).length = 2 ∧
        ((wCeilServer i).next_token).isSome = true) ∧
    (get_mentions wCeilServer 3).requests ≤ 2 * 3 ∧
    (get_mentions wCeilServer 3 =
      ⟨.ok (pagesData wCeilServer 0 3, pagesIdx wCeilServer 0 3 []), 3⟩ ∧
      (pagesData wCeilServer 0 3).length = 3 * 2) :=
  ⟨by decide, (get_mentions_page_ceiling wCeilServer 3 2).1,
    (get_mentions_page_ceiling wCeilServer 3 2).2 (by decide)⟩

/-- C6: over any successful run, the returned author index maps each author
id to the last record carrying that id in the arrival-ordered stream of
`includes.users` entries (last-write-wins, in particular the record from
the last page in which the id appeared), its key set is exactly the set of
author ids seen across all pages, and each key occurs exactly once. -/
theorem get_mentions_author_index (server : Nat → MResponse) (P max_pages : Nat)
    (hP : 0 < P) (hle : P ≤ max_pages)
    (hstat : ∀ i, i < P → (server i).status = 200)
    (hnt : ∀ i, i + 1 < P → ((server i).next_token).isSome = true)
    (hlast : (server (P - 1)).next_token = none) :
    get_mentions server max_pages =
      ⟨.ok (pagesData server 0 P, pagesIdx server 0 P []), P⟩ ∧
    (∀ k, dlookup (pagesIdx server 0 P []) k = lastById (pagesUsers server 0 P) k) ∧
    (∀ k, k ∈ keysOf (pagesIdx server 0 P []) ↔
      k ∈ (pagesUsers server 0 P).map User.id) ∧
    (keysOf (pagesIdx server 0 P [])).Nodup := by
  refine ⟨?_, ?_, ?_, ?_⟩
  · have h := get_mentionsLoop_run_ok server P max_pages 0 [] [] hP hle
      (by intro i hi; simpa using hstat i hi)
      (by intro i hi; simpa using hnt i hi)
      (by simpa using hlast)
    simpa [get_mentions] using h
  · intro k
    rw [dlookup_pagesIdx server P 0 [] k]
    simp [dlookup, oor_none]
  · intro k
    rw [mem_keysOf_pagesIdx server P 0 [] k]
    simp [keysOf]
  · exact nodup_keysOf_pagesIdx server P 0 [] (by simp [keysOf])

/-- Witness for C6: in the two-page session `wServer`, author `a1` appears
on both pages with different records; the index maps `a1` to the second
page's record, contains exactly the ids seen, and has no duplicate keys. -/
theorem get_mentions_author_index_witness :
    (0 < 2 ∧ 2 ≤ 5 ∧ (∀ i, i < 2 → (wServer i).status = 200) ∧
      (∀ i, i + 1 < 2 → ((wServer i).next_token).isSome = true) ∧
      (wServer (2 - 1)).next_token = none) ∧
    get_mentions wServer 5 =
      ⟨.ok (pagesData wServer 0 2, pagesIdx wServer 0 2 []), 2⟩ ∧
    dlookup (pagesIdx wServer 0 2 []) "a1" = lastById (pagesUsers wServer 0 2) "a1" ∧
    ("a3" ∈ keysOf (pagesIdx wServer 0 2 []) ↔
      "a3" ∈ (pagesUsers wServer 0 2).map User.id) ∧
    (keysOf (pagesIdx wServer 0 2 [])).Nodup :=
  ⟨⟨by decide, by decide, by decide,
      by intro i hi; have h0 : i = 0 := (by omega); subst h0; decide, by decide⟩,
    (get_mentions_author_index wServer 2 5 (by decide) (by decide) (by decide)
      (by intro i hi; have h0 : i = 0 := (by omega); subst h0; decide) (by decide)).1,
    (get_mentions_author_index wServer 2 5 (by decide) (by decide) (by decide)
      (by intro i hi; have h0 : i = 0 := (by omega); subst h0; decide) (by decide)).2.1 "a1",
    (get_mentions_author_index wServer 2 5 (by decide) (by decide) (by decide)
      (by intro i hi; have h0 : i = 0 := (by omega); subst h0; decide) (by decide)).2.2.1 "a3",
    (get_mentions_author_index wServer 2 5 (by decide) (by decide) (by decide)
      (by intro i hi; have h0 : i = 0 := (by omega); subst h0; decide) (by decide)).2.2.2⟩

/-! ## Lemmas about the batched user lookup -/

theorem userBatchesAux_flatten :
    ∀ (fuel : Nat) (l : List String), l.length ≤ fuel →
      (userBatchesAux fuel l).flatten = l := by
  intro fuel
  induction fuel with
  | zero =>
    intro l hl
    have h0 : l = [] := List.length_eq_zero.mp (by omega)
    subst h0
    simp [userBatchesAux]
  | succ n ih =>
    intro l hl
    by_cases h : l = []
    · subst h; simp [userBatchesAux]
    · have hd : (l.drop 100).length ≤ n := by
        simp only [List.length_drop]
        have := List.length_pos.mpr h
        omega
      simp only [userBatchesAux, h, if_neg, not_false_iff, List.flatten_cons]
      rw [ih (l.drop 100) hd]
      exact List.take_append_drop 100 l

theorem userBatches_flatten (l : List String) : (userBatches l).flatten = l :=
  userBatchesAux_flatten l.length l (le_refl _)

theorem userBatchesAux_sizes :
    ∀ (fuel : Nat) (l : List String), ∀ b ∈ userBatchesAux fuel l, b.length ≤ 100 := by
  intro fuel
  induction fuel with
  | zero => intro l b hb; simp [userBatchesAux] at hb
  | succ n ih =>
    intro l b hb
    by_cases h : l = []
    · simp [userBatchesAux, h] at hb
    · simp only [userBatchesAux, h, if_neg, not_false_iff, List.mem_cons] at hb
      rcases hb with rfl | hb
      · simp only [List.length_take]
        omega
      · exact ih (l.drop 100) b hb

theorem userBatches_sizes (l : List String) : ∀ b ∈ userBatches l, b.length ≤ 100 :=
  fun b hb => userBatchesAux_sizes l.length l b hb

theorem get_usersLoop_ok (server : Nat → List String → UsersResponse) :
    ∀ (bs : List (List String)) (reqIdx : Nat) (acc : List ProfileRec),
      batchesOk server reqIdx bs = true →
      get_usersLoop server bs reqIdx acc =
        ⟨.ok (acc ++ batchesData server reqIdx bs), reqIdx + bs.length⟩ := by
  intro bs
  induction bs with
  | nil => intro reqIdx acc _; simp [get_usersLoop, batchesData]
  | cons b bs ih =>
    intro reqIdx acc h
    simp only [batchesOk, Bool.and_eq_true, beq_iff_eq] at h
    have hrec := ih (reqIdx + 1) (acc ++ (server reqIdx b).data) h.2
    simp only [get_usersLoop, h.1]
    norm_num
    rw [hrec]
    simp only [batchesData, List.append_assoc, UsersOutcome.mk.injEq, List.length_cons]
    refine ⟨trivial, by omega⟩

theorem get_usersLoop_err (server : Nat → List String → UsersResponse) :
    ∀ (bs : List (List String)) (k : Nat) (reqIdx : Nat) (acc : List ProfileRec)
      (h : k < bs.length),
      batchesOk server reqIdx (bs.take k) = true →
      (server (reqIdx + k) (bs.get ⟨k, h⟩)).status ≠ 200 →
      get_usersLoop server bs reqIdx acc =
        ⟨.error ("API error: " ++ (server (reqIdx + k) (bs.get ⟨k, h⟩)).text),
          reqIdx + k + 1⟩ := by
  intro bs
  induction bs with
  | nil => intro k reqIdx acc h; simp at h
  | cons b bs ih =>
    intro k reqIdx acc h hok hbad
    cases k with
    | zero =>
      simp only [List.get, Nat.add_zero] at hbad ⊢
      simp [get_usersLoop, hbad]
    | succ k =>
      simp only [List.take, batchesOk, Bool.and_eq_true, beq_iff_eq] at hok
      have hs : (server reqIdx b).status = 200 := hok.1
      have hrec := ih k (reqIdx + 1) (acc ++ (server reqIdx b).data)
        (by simpa using h) hok.2
        (by
          have heq : reqIdx + 1 + k = reqIdx + (k + 1) := by omega
          rw [heq]
          simpa [List.get] using hbad)
      simp only [get_usersLoop, hs]
      norm_num
      rw [hrec]
      have heq : reqIdx + 1 + k = reqIdx + (k + 1) := by omega
      simp [List.get, heq]

/-! ## Claims about the collaborators -/

/-- C7: in `keyword2csv`, the mention check runs first and the retweet
check second, each unconditionally overwriting `tag`/`source`; hence
whenever the retweet pattern matches the text (in particular when both
patterns match), the assigned tag is `"retweet"` with the retweet capture,
and when only the mention pattern matches, the tag is `"mention"` with the
mention capture. -/
theorem tagSource_precedence (text : String) :
    (∀ g, reSearch rtAt text.toList = some g →
      tagSource text = ("retweet", String.mk g)) ∧
    (reSearch rtAt text.toList = none →
      ∀ g, reSearch mentionAt text.toList = some g →
        tagSource text = ("mention", String.mk g)) := by
  constructor
  · intro g hg
    have hg2 : reSearch rtAt text.data = some g := hg
    simp [tagSource, hg2]
  · intro hrt g hg
    have hrt2 : reSearch rtAt text.data = none := hrt
    have hg2 : reSearch mentionAt text.data = some g := hg
    simp [tagSource, hrt2, hg2]

/-- Witness for C7: `"RT @alice: hi"` matches both patterns (the mention
pattern captures `alice:`) and is tagged `retweet`/`alice`; `"hi @bob"`
matches only the mention pattern and is tagged `mention`/`bob`. -/
theorem tagSource_precedence_witness :
    (reSearch rtAt ("RT @alice: hi").toList = some ("alice".toList) ∧
      reSearch mentionAt ("RT @alice: hi").toList = some ("alice:".toList) ∧
      tagSource "RT @alice: hi" = ("retweet", "alice")) ∧
    (reSearch rtAt ("hi @bob").toList = none ∧
      reSearch mentionAt ("hi @bob").toList = some ("bob".toList) ∧
      tagSource "hi @bob" = ("mention", "bob")) :=
  ⟨⟨by decide, by decide,
      (tagSource_precedence "RT @alice: hi").1 ("alice".toList) (by decide)⟩,
    ⟨by decide, by decide,
      (tagSource_precedence "hi @bob").2 (by decide) ("bob".toList) (by decide)⟩⟩

/-- C8: `get_users` splits the id list in order into consecutive batches of
at most 100 (their concatenation is the input list), issues one request per
batch sequentially, returns the concatenation of the per-batch `data`
arrays in batch order when every response is 200, and raises
`Exception(f"API error: ...")` on the first non-200 response — 429
included, with no retry — after exactly that many requests. -/
theorem get_users_batches (user_ids : List String)
    (server : Nat → List String → UsersResponse) :
    ((userBatches user_ids).flatten = user_ids ∧
      (∀ b ∈ userBatches user_ids, b.length ≤ 100)) ∧
    (batchesOk server 0 (userBatches user_ids) = true →
      get_users user_ids server =
        ⟨.ok (batchesData server 0 (userBatches user_ids)),
          (userBatches user_ids).length⟩) ∧
    (∀ k, (h : k < (userBatches user_ids).length) →
      batchesOk server 0 ((userBatches user_ids).take k) = true →
      (server k ((userBatches user_ids).get ⟨k, h⟩)).status ≠ 200 →
      get_users user_ids server =
        ⟨.error ("API error: " ++ (server k ((userBatches user_ids).get ⟨k, h⟩)).text),
          k + 1⟩) := by
  refine ⟨⟨userBatches_flatten user_ids, userBatches_sizes user_ids⟩, ?_, ?_⟩
  · intro hok
    have h := get_usersLoop_ok server (userBatches user_ids) 0 [] hok
    simpa [get_users] using h
  · intro k h hok hbad
    have hrec := get_usersLoop_err server (userBatches user_ids) k 0 [] h hok
      (by simpa using hbad)
    simpa [get_users] using hrec

/-- Witness for C8: 101 ids form two ordered batches (100 + 1) whose
concatenation is the input; the all-200 server yields the two data arrays
concatenated in 2 requests; the always-429 server makes the very first
request fail with the `API error` exception and no second request. -/
theorem get_users_batches_witness :
    ((userBatches wIds).flatten = wIds ∧ (userBatches wIds).length = 2) ∧
    (batchesOk wUsersServer 0 (userBatches wIds) = true ∧
      get_users wIds wUsersServer =
        ⟨.ok (batchesData wUsersServer 0 (userBatches wIds)), (userBatches wIds).length⟩) ∧
    (0 < (userBatches wIds).length ∧
      batchesOk wUsersBadServer 0 ((userBatches wIds).take 0) = true ∧
      (wUsersBadServer 0 ((userBatches wIds).get ⟨0, by decide⟩)).status ≠ 200 ∧
      get_users wIds wUsersBadServer =
        ⟨.error ("API error: " ++
          (wUsersBadServer 0 ((userBatches wIds).get ⟨0, by decide⟩)).text), 0 + 1⟩) :=
  ⟨⟨(get_users_batches wIds wUsersServer).1.1, by decide⟩,
    ⟨by decide, (get_users_batches wIds wUsersServer).2.1 (by decide)⟩,
    ⟨by decide, by decide, by decide,
      (get_users_batches wIds wUsersBadServer).2.2 0 (by decide) (by decide) (by decide)⟩⟩

/-- C9: the rows `keyword2csv` writes are the elements of a Python `set` of
per-tweet tuples: appending a duplicate of a tweet already in the input
leaves the row set unchanged, the row set is invariant under permutation of
the input (arrival order is not reflected in the set), and a row is present
iff some input tweet produces it (one row per distinct tuple). -/
theorem keyword2csvRows_set_semantics (tweets : List Tweet) (users : AuthorIndex)
    (keyword : String) :
    (∀ t, t ∈ tweets →
      keyword2csvRows (tweets ++ [t]) users keyword =
        keyword2csvRows tweets users keyword) ∧
    (∀ l1 l2 : List Tweet, l1.Perm l2 →
      keyword2csvRows l1 users keyword = keyword2csvRows l2 users keyword) ∧
    (∀ r : Row, r ∈ keyword2csvRows tweets users keyword ↔
      ∃ t, t ∈ tweets ∧ rowOf users keyword t = r) := by
  refine ⟨?_, ?_, ?_⟩
  · intro t ht
    rw [keyword2csvRows, keyword2csvRows, List.map_append, List.toFinset_append]
    apply Finset.union_eq_left.mpr
    intro r hr
    simp only [List.map_cons, List.map_nil, List.toFinset_cons, List.toFinset_nil,
      insert_emptyc_eq, Finset.mem_singleton] at hr
    subst hr
    rw [List.mem_toFinset]
    exact List.mem_map_of_mem _ ht
  · intro l1 l2 hperm
    rw [keyword2csvRows, keyword2csvRows]
    exact List.toFinset_eq_of_perm _ _ (hperm.map _)
  · intro r
    simp [keyword2csvRows, List.mem_toFinset, List.mem_map]

/-- Witness for C9: duplicating the first of two tweets does not change the
row set, swapping the two tweets does not change the row set, and the first
tweet's row is in the set. -/
theorem keyword2csvRows_set_semantics_witness :
    (wT1 ∈ [wT1, wT2] ∧
      keyword2csvRows ([wT1, wT2] ++ [wT1]) wUsers "kw" =
        keyword2csvRows [wT1, wT2] wUsers "kw") ∧
    (List.Perm [wT1, wT2] [wT2, wT1] ∧
      keyword2csvRows [wT1, wT2] wUsers "kw" =
        keyword2csvRows [wT2, wT1] wUsers "kw") ∧
    (rowOf wUsers "kw" wT1 ∈ keyword2csvRows [wT1, wT2] wUsers "kw" ↔
      ∃ t, t ∈ [wT1, wT2] ∧ rowOf wUsers "kw" t = rowOf wUsers "kw" wT1) :=
  ⟨⟨by decide, (keyword2csvRows_set_semantics [wT1, wT2] wUsers "kw").1 wT1 (by decide)⟩,
    ⟨by decide,
      (keyword2csvRows_set_semantics [wT1, wT2] wUsers "kw").2.1 [wT1, wT2] [wT2, wT1]
        (by decide)⟩,
    (keyword2csvRows_set_semantics [wT1, wT2] wUsers "kw").2.2 (rowOf wUsers "kw" wT1)⟩

/-- C10: `keyword2csv` never fails on an unknown author: when the author id
is not a key of `users`, the row's `Author_Username` and `Location` are both
`"unknown"`; and when the author record exists but has no `location` field,
`Location` is `"unknown"`. -/
theorem rowOf_unknown_defaults (users : AuthorIndex) (keyword : String) (t : Tweet) :
    (dlookup users t.author_id = none →
      (rowOf users keyword t).Author_Username = "unknown" ∧
      (rowOf users keyword t).Location = "unknown") ∧
    (∀ u, dlookup users t.author_id = some u → u.location = none →
      (rowOf users keyword t).Location = "unknown") := by
  constructor
  · intro h
    simp [rowOf, h]
  · intro u hu hl
    simp [rowOf, hu, hl]

/-- Witness for C10: tweet `wT2`'s author `a9` is not in `wUsers`, so its
row has username and location `"unknown"`; tweet `wT3`'s author `a2` is
present but has no location, so its row's location is `"unknown"`. -/
theorem rowOf_unknown_defaults_witness :
    (dlookup wUsers wT2.author_id = none ∧
      (rowOf wUsers "kw" wT2).Author_Username = "unknown" ∧
      (rowOf wUsers "kw" wT2).Location = "unknown") ∧
    (dlookup [("a2", wNoLocUser)] wT3.author_id = some wNoLocUser ∧
      wNoLocUser.location = none ∧
      (rowOf [("a2", wNoLocUser)] "kw" wT3).Location = "unknown") :=
  ⟨⟨by decide, (rowOf_unknown_defaults wUsers "kw" wT2).1 (by decide)⟩,
    ⟨by decide, by decide,
      (rowOf_unknown_defaults [("a2", wNoLocUser)] "kw" wT3).2 wNoLocUser
        (by decide) (by decide)⟩⟩
